import Mathlib

/-!
Verification of the resolution-and-verified-transfer engine of
`locate-resources.py` (a Minecraft resource verifier and downloader).

The Python source is shallowly embedded:
pure functions (`parse_rules`, `get_libraries`, `get_assets`) become Lean
functions; the stateful parts (`fetch_json`, `download_file_async`,
`download_file_async_with_retry`, and the task-collection / filter / download
loops of `headless`) are modelled by explicit state passing over a
filesystem map from paths to file contents.  The SHA-1 digest function
`compute_sha1` is kept abstract: every stateful definition takes a digest
function `sha1fn : String → String` as a parameter (the digest of a file is
the digest of its stored content), so all theorems hold for an arbitrary
digest.  Network I/O is modelled by a function from attempt number to the
result of that GET (`Except String String`: an error message, or the
response body); paths produced by `os.path.join` are modelled as
slash-separated string concatenation.
-/

namespace LocateResources

/-- The `ALL_OS` list from the source: the three platform names. -/
def ALL_OS : List String := ["osx", "linux", "windows"]

/-- The `os` object of a rule: a platform `name` and an optional `version`
key (the code only tests the presence of the key, never its value). -/
structure OsPred where
  name : String
  version : Option String
deriving DecidableEq, Repr

/-- One element of a `rules` list: an `action` string (`"allow"` or
`"disallow"` in real manifests, but the code accepts any string and treats
every non-`"allow"` action as a subtraction) and an optional `os` object. -/
structure PlatformRule where
  action : String
  os : Option OsPred
deriving DecidableEq, Repr

/-- The body of the `for rule in rules` loop of `parse_rules`: a rule's
`change` set is all platforms when it has no `os` key, otherwise the
singleton of the named platform unless the rule is a `disallow` whose `os`
carries a `version` key (then `change` stays empty); `allow` unions,
anything else subtracts. -/
def parse_rules_step (allowed_os : Finset String) (rule : PlatformRule) : Finset String :=
  let change : Finset String :=
    match rule.os with
    | some o =>
      if rule.action = "disallow" ∧ o.version.isSome then ∅ else {o.name}
    | none => ALL_OS.toFinset
  if rule.action = "allow" then allowed_os ∪ change else allowed_os \ change

/-- The `parse_rules` function from the source.  Empty list: all platforms.  Otherwise a
left-to-right fold of `parse_rules_step` starting from the empty set. -/
def parse_rules (rules : List PlatformRule) : Finset String :=
  if rules.isEmpty then ALL_OS.toFinset
  else rules.foldl parse_rules_step ∅

/-- An action of the specification's `PlatformRule`: `allow` or `disallow`. -/
inductive SpecAction where
  | allow
  | disallow
deriving DecidableEq, Repr

/-- The specification's platform predicate: a platform name and a
version-match flag. -/
structure SpecOsPred where
  name : String
  hasVersion : Bool
deriving DecidableEq, Repr

/-- The specification's rule: an action and an optional platform predicate. -/
structure SpecRule where
  action : SpecAction
  os : Option SpecOsPred
deriving DecidableEq, Repr

/-- Modelled from the spec: a rule's implied platform set — the full set if
the rule has no platform predicate, otherwise the single named platform,
except that a `disallow` rule whose predicate pins an OS version implies
the empty set. -/
def SpecRule.implied (r : SpecRule) : Finset String :=
  match r.os with
  | none => ALL_OS.toFinset
  | some o =>
    match r.action with
    | .allow => {o.name}
    | .disallow => if o.hasVersion then ∅ else {o.name}

/-- Modelled from the spec: one step of `RuleEvaluator.evaluate` — union for
`allow`, set-difference for `disallow`, of the rule's implied set. -/
def evaluate_step (acc : Finset String) (r : SpecRule) : Finset String :=
  match r.action with
  | .allow => acc ∪ r.implied
  | .disallow => acc \ r.implied

/-- Modelled from the spec: `RuleEvaluator.evaluate` — the full platform set
on an empty rule list, otherwise a left-to-right fold of `evaluate_step`
starting from the empty set. -/
def evaluate (rules : List SpecRule) : Finset String :=
  if rules.isEmpty then ALL_OS.toFinset
  else rules.foldl evaluate_step ∅

/-- Reading a code-level rule as a specification rule: the action string
`"allow"` maps to `allow`, `"disallow"` to `disallow`; the version-match
flag is the presence of the `version` key. -/
def PlatformRule.toSpec (r : PlatformRule) : SpecRule :=
  ⟨if r.action = "allow" then .allow else .disallow,
   r.os.map fun o => ⟨o.name, o.version.isSome⟩⟩

/-- A rule list is well-formed when every action is `allow` or `disallow`
(the only actions appearing in real manifests and in the spec's data
model). -/
def wfActions (rules : List PlatformRule) : Prop :=
  ∀ r ∈ rules, r.action = "allow" ∨ r.action = "disallow"

instance (rules : List PlatformRule) : Decidable (wfActions rules) := by
  unfold wfActions
  infer_instance

theorem parse_rules_step_eq (rule : PlatformRule) (acc : Finset String)
    (h : rule.action = "allow" ∨ rule.action = "disallow") :
    parse_rules_step acc rule = evaluate_step acc rule.toSpec := by
  rcases h with h | h <;> cases ho : rule.os
  · simp [parse_rules_step, evaluate_step, PlatformRule.toSpec, SpecRule.implied, h, ho]
  · simp [parse_rules_step, evaluate_step, PlatformRule.toSpec, SpecRule.implied, h, ho]
  · simp [parse_rules_step, evaluate_step, PlatformRule.toSpec, SpecRule.implied, h, ho]
  · rename_i o
    by_cases hv : o.version.isSome <;>
      simp [parse_rules_step, evaluate_step, PlatformRule.toSpec, SpecRule.implied, h, ho, hv]

theorem parse_rules_fold_eq (rules : List PlatformRule) (acc : Finset String)
    (h : wfActions rules) :
    rules.foldl parse_rules_step acc =
      (rules.map PlatformRule.toSpec).foldl evaluate_step acc := by
  induction rules generalizing acc with
  | nil => rfl
  | cons r rs ih =>
    have hr : r.action = "allow" ∨ r.action = "disallow" := h r (List.mem_cons_self r rs)
    have hrs : wfActions rs := fun x hx => h x (List.mem_cons_of_mem r hx)
    simp only [List.foldl_cons, List.map_cons, parse_rules_step_eq r acc hr, ih _ hrs]

/-- C3: for every rule list whose actions are `allow`/`disallow`, the code's
`parse_rules` computes exactly the specification's reference evaluation
(full set on the empty list, otherwise a left-to-right fold from the empty
set of each rule's implied set, with the disallow-by-version exemption);
moreover the spec's concrete example `[{allow, os:null}, {disallow,
os:linux}]` evaluates to `{osx, windows}`. -/
theorem rule_evaluation_matches_reference :
    (∀ rules : List PlatformRule, wfActions rules →
        parse_rules rules = evaluate (rules.map PlatformRule.toSpec)) ∧
    parse_rules [⟨"allow", none⟩, ⟨"disallow", some ⟨"linux", none⟩⟩] =
      ({"osx", "windows"} : Finset String) := by
  constructor
  · intro rules h
    unfold parse_rules evaluate
    cases rules with
    | nil => rfl
    | cons r rs =>
      rw [if_neg (by simp), if_neg (by simp)]
      exact parse_rules_fold_eq (r :: rs) ∅ h
  · decide

/-- Witness for C3 at a concrete rule list. -/
theorem rule_evaluation_matches_reference_witness :
    wfActions [⟨"allow", some ⟨"linux", none⟩⟩] ∧
    parse_rules [⟨"allow", some ⟨"linux", none⟩⟩] =
      evaluate ([(⟨"allow", some ⟨"linux", none⟩⟩ : PlatformRule)].map PlatformRule.toSpec) :=
  ⟨by decide, rule_evaluation_matches_reference.1 _ (by decide)⟩

/-- Every `os.name` mentioned by the rules is one of the three known
platforms. -/
def osNamesKnown (rules : List PlatformRule) : Bool :=
  rules.all fun r =>
    match r.os with
    | some o => decide (o.name ∈ ALL_OS)
    | none => true

theorem parse_rules_step_subset (acc : Finset String) (rule : PlatformRule)
    (hacc : acc ⊆ ALL_OS.toFinset)
    (hr : ∀ o, rule.os = some o → o.name ∈ ALL_OS) :
    parse_rules_step acc rule ⊆ ALL_OS.toFinset := by
  by_cases ha : rule.action = "allow" <;> cases ho : rule.os
  · simpa [parse_rules_step, ha, ho] using Finset.union_subset hacc (Finset.Subset.refl _)
  · rename_i o
    by_cases hv : rule.action = "disallow" ∧ o.version.isSome
    · exact absurd (hv.1.symm.trans ha) (by decide)
    · have hn : o.name ∈ ALL_OS.toFinset := List.mem_toFinset.mpr (hr o ho)
      simpa [parse_rules_step, ha, ho, hv] using
        Finset.union_subset hacc (Finset.singleton_subset_iff.mpr hn)
  · simpa [parse_rules_step, ha, ho] using Finset.Subset.trans Finset.sdiff_subset hacc
  · simpa [parse_rules_step, ha, ho] using Finset.Subset.trans Finset.sdiff_subset hacc

/-- C8 (amended): when every os name mentioned in the rules is one of the
three known platforms, `parse_rules` yields a subset of
`{osx, linux, windows}`. -/
theorem parse_rules_subset_all_os (rules : List PlatformRule)
    (h : osNamesKnown rules = true) :
    parse_rules rules ⊆ ALL_OS.toFinset := by
  unfold parse_rules
  by_cases he : rules.isEmpty
  · simp [he]
  · simp only [if_neg he]
    have key : ∀ (rs : List PlatformRule) (acc : Finset String),
        osNamesKnown rs = true → acc ⊆ ALL_OS.toFinset →
        rs.foldl parse_rules_step acc ⊆ ALL_OS.toFinset := by
      intro rs
      induction rs with
      | nil => intro acc _ hacc; exact hacc
      | cons r rest ih =>
        intro acc hk hacc
        simp only [osNamesKnown, List.all_cons, Bool.and_eq_true] at hk
        refine ih _ hk.2 ?_
        refine parse_rules_step_subset acc r hacc ?_
        intro o ho
        have h1 := hk.1
        rw [ho] at h1
        exact of_decide_eq_true h1
    exact key rules ∅ h (by simp)

/-- Witness for C8's amended theorem at a concrete rule list. -/
theorem parse_rules_subset_all_os_witness :
    osNamesKnown [⟨"allow", some ⟨"linux", none⟩⟩] = true ∧
    parse_rules [⟨"allow", some ⟨"linux", none⟩⟩] ⊆ ALL_OS.toFinset :=
  ⟨by decide, parse_rules_subset_all_os _ (by decide)⟩

/-- C8 counterexample: a rule naming an os outside the known three puts
that name into the evaluated set, so the result is not a subset of
`{osx, linux, windows}`. -/
theorem parse_rules_not_subset_all_os :
    ¬ parse_rules [⟨"allow", some ⟨"solaris", none⟩⟩] ⊆ ALL_OS.toFinset := by
  decide

/-- Python `s.startswith(pre)`, modelled on the code-point sequence (Python
strings are sequences of code points, so this is the faithful reading of
the source's string operations). -/
def pyStartsWith (s pre : String) : Bool :=
  pre.data.isPrefixOf s.data

/-- Python slicing `s[n:]` on code points. -/
def pyDrop (s : String) (n : Nat) : String :=
  ⟨s.data.drop n⟩

/-- Python slicing `s[:n]` on code points. -/
def pyTake (s : String) (n : Nat) : String :=
  ⟨s.data.take n⟩

/-- The `artifact` / classifier info object of a library's `downloads`
section: the fields the code reads (`url`, `path`, `sha1`). -/
structure ArtifactInfo where
  url : Option String
  path : Option String
  sha1 : Option String
deriving DecidableEq, Repr

/-- A library's `downloads` section: an optional primary `artifact` and an
optional `classifiers` mapping (classifier name to info, in the JSON
object's insertion order). -/
structure LibDownloads where
  artifact : Option ArtifactInfo
  classifiers : Option (List (String × ArtifactInfo))
deriving DecidableEq, Repr

/-- One entry of a manifest's `libraries` list: optional `rules` (absent key
modelled as the empty list, matching `lib.get('rules', [])`) and an
optional `downloads` section. -/
structure LibraryEntry where
  rules : List PlatformRule
  downloads : Option LibDownloads
deriving DecidableEq, Repr

/-- The body of the `for lib in libs` loop of `get_libraries`: append the
primary artifact when present, then every classifier whose name starts
with `natives-` and whose name minus its first 8 characters is in the
evaluated platform set. -/
def get_libraries_step (acc : List ArtifactInfo) (lib : LibraryEntry) : List ArtifactInfo :=
  let allowed_os := parse_rules lib.rules
  match lib.downloads with
  | none => acc
  | some dl =>
    let acc1 :=
      match dl.artifact with
      | some a => acc ++ [a]
      | none => acc
    match dl.classifiers with
    | none => acc1
    | some cls =>
      acc1 ++ (cls.filter fun c =>
        pyStartsWith c.1 "natives-" && decide (pyDrop c.1 8 ∈ allowed_os)).map Prod.snd

/-- The `get_libraries` function from the source: fold the loop body over the entries,
starting from the empty list. -/
def get_libraries (libs : List LibraryEntry) : List ArtifactInfo :=
  libs.foldl get_libraries_step []

/-- Modelled from the spec: the artifacts one library entry contributes —
the primary artifact (when present) unconditionally, and each
`natives-<platform>` classifier exactly when `<platform>` (the name with
its first 8 characters stripped) is in the entry's evaluated platform
set. -/
def specLibraryEmits (lib : LibraryEntry) : List ArtifactInfo :=
  match lib.downloads with
  | none => []
  | some dl =>
    dl.artifact.toList ++
      ((dl.classifiers.getD []).filter fun c =>
        pyStartsWith c.1 "natives-" && decide (pyDrop c.1 8 ∈ parse_rules lib.rules)).map Prod.snd

theorem get_libraries_step_eq (acc : List ArtifactInfo) (lib : LibraryEntry) :
    get_libraries_step acc lib = acc ++ specLibraryEmits lib := by
  unfold get_libraries_step specLibraryEmits
  cases lib.downloads with
  | none => simp
  | some dl =>
    obtain ⟨art, cls⟩ := dl
    cases art <;> cases cls <;> simp

theorem get_libraries_fold_eq (libs : List LibraryEntry) (acc : List ArtifactInfo) :
    libs.foldl get_libraries_step acc = acc ++ libs.flatMap specLibraryEmits := by
  induction libs generalizing acc with
  | nil => simp
  | cons lib rest ih =>
    simp only [List.foldl_cons, List.flatMap_cons, get_libraries_step_eq, ih,
      List.append_assoc]

theorem get_libraries_eq (libs : List LibraryEntry) :
    get_libraries libs = libs.flatMap specLibraryEmits := by
  simpa using get_libraries_fold_eq libs []

/-- C4: every library entry contributes its primary artifact (when present)
unconditionally, and a `natives-<platform>` classifier exactly when
`<platform>` (the classifier name with its first 8 characters stripped)
is in the entry's evaluated platform set; and the spec's concrete
scenario — rules `[{allow, os:linux}]`, classifiers `natives-linux`,
`natives-windows` — resolves to exactly the primary artifact plus the
`natives-linux` classifier. -/
theorem library_emission (a i1 i2 : ArtifactInfo) :
    (∀ libs : List LibraryEntry, get_libraries libs = libs.flatMap specLibraryEmits) ∧
    get_libraries
        [⟨[⟨"allow", some ⟨"linux", none⟩⟩],
          some ⟨some a, some [("natives-linux", i1), ("natives-windows", i2)]⟩⟩] =
      [a, i1] := by
  exact ⟨get_libraries_eq, rfl⟩

/-- C10: anything `get_libraries` emits is either some entry's primary
artifact or one of its classifiers whose name starts with `natives-` and
whose stripped platform is in the entry's evaluated set — so a classifier
whose name does not start with `natives-` is never emitted. -/
theorem non_natives_never_emitted (libs : List LibraryEntry) (x : ArtifactInfo)
    (hx : x ∈ get_libraries libs) :
    ∃ lib ∈ libs, ∃ dl, lib.downloads = some dl ∧
      (dl.artifact = some x ∨
        ∃ name, (name, x) ∈ dl.classifiers.getD [] ∧
          pyStartsWith name "natives-" = true ∧ pyDrop name 8 ∈ parse_rules lib.rules) := by
  rw [get_libraries_eq, List.mem_flatMap] at hx
  obtain ⟨lib, hlib, hmem⟩ := hx
  refine ⟨lib, hlib, ?_⟩
  unfold specLibraryEmits at hmem
  cases hdl : lib.downloads with
  | none => rw [hdl] at hmem; simp at hmem
  | some dl =>
    rw [hdl] at hmem
    refine ⟨dl, rfl, ?_⟩
    rcases List.mem_append.mp hmem with h | h
    · left
      cases ha : dl.artifact <;> rw [ha] at h <;> simp_all [Option.toList]
    · right
      obtain ⟨⟨name, info⟩, hf, heq⟩ := List.mem_map.mp h
      have hfm := List.mem_filter.mp hf
      refine ⟨name, ?_, ?_, ?_⟩
      · cases heq; exact hfm.1
      · exact (Bool.and_eq_true _ _ |>.mp hfm.2).1
      · exact of_decide_eq_true (Bool.and_eq_true _ _ |>.mp hfm.2).2

/-- Witness for C10 at a concrete library list. -/
theorem non_natives_never_emitted_witness :
    (⟨some "u", some "p", some "s"⟩ : ArtifactInfo) ∈
        get_libraries [⟨[], some ⟨some ⟨some "u", some "p", some "s"⟩, none⟩⟩] ∧
    ∃ lib ∈ [(⟨[], some ⟨some ⟨some "u", some "p", some "s"⟩, none⟩⟩ : LibraryEntry)],
      ∃ dl, lib.downloads = some dl ∧
        (dl.artifact = some ⟨some "u", some "p", some "s"⟩ ∨
          ∃ name, (name, (⟨some "u", some "p", some "s"⟩ : ArtifactInfo)) ∈
              dl.classifiers.getD [] ∧
            pyStartsWith name "natives-" = true ∧ pyDrop name 8 ∈ parse_rules lib.rules) :=
  ⟨by decide, non_natives_never_emitted _ _ (by decide)⟩

/-- The local filesystem: a map from path to the content of the file stored
there (`none`: no file at that path). -/
def Fs : Type := String → Option String

/-- Writing a file: `open(path, "w").write(content)`. -/
def Fs.write (fs : Fs) (path content : String) : Fs :=
  fun q => if q = path then some content else fs q

/-- Python truthiness of an optional digest string: `None` and the empty
string are falsy; the code guards every digest comparison with
`if expected_sha:` / `if sha:`, so an absent or empty digest means "no
digest to check". -/
def truthy : Option String → Bool
  | none => false
  | some s => !s.data.isEmpty

/-- The outcome of one `fetch_json` call: the returned document (or the
propagated exception), the filesystem afterwards, the number of HTTP GET
attempts performed, and the backoff delays slept (in seconds). -/
structure FetchResult where
  res : Except String String
  fs : Fs
  attempts : Nat
  delays : List Nat

/-- The `fetch_json` function from the source.  If a file exists at `filename`, load and
return it with no network access.  Otherwise up to 3 GET attempts
(`net url k` is the result of attempt `k`): a success persists the body
to `filename` and returns it; a failure sleeps `2 ^ attempt` seconds
while `attempt < 2`, and the third failure re-raises the last error.
A document and its serialized form are identified, so parsing is the
identity. -/
def fetch_json (net : String → Nat → Except String String) (fs : Fs)
    (url filename : String) : FetchResult :=
  match fs filename with
  | some content => ⟨.ok content, fs, 0, []⟩
  | none =>
    match net url 0 with
    | .ok body => ⟨.ok body, fs.write filename body, 1, []⟩
    | .error _ =>
      match net url 1 with
      | .ok body => ⟨.ok body, fs.write filename body, 2, [1]⟩
      | .error _ =>
        match net url 2 with
        | .ok body => ⟨.ok body, fs.write filename body, 3, [1, 2]⟩
        | .error e => ⟨.error e, fs, 3, [1, 2]⟩

/-- C6: a cached document is returned as-is with zero network attempts and
no filesystem change, regardless of its content; otherwise at most 3 GET
attempts are made, with exponential backoff (1 s then 2 s) between them,
and if all three fail the last underlying error is propagated. -/
theorem fetch_json_cache_and_retry (net : String → Nat → Except String String)
    (fs : Fs) (url filename : String) :
    (∀ c, fs filename = some c →
        fetch_json net fs url filename = ⟨.ok c, fs, 0, []⟩) ∧
    (fetch_json net fs url filename).attempts ≤ 3 ∧
    (∀ e0 e1 e2, fs filename = none →
        net url 0 = .error e0 → net url 1 = .error e1 → net url 2 = .error e2 →
        (fetch_json net fs url filename).res = .error e2 ∧
        (fetch_json net fs url filename).delays = [1, 2]) := by
  refine ⟨?_, ?_, ?_⟩
  · intro c hc
    unfold fetch_json
    rw [hc]
  · unfold fetch_json
    cases fs filename
    · cases net url 0
      · cases net url 1
        · cases net url 2 <;> simp
        · simp
      · simp
    · simp
  · intro e0 e1 e2 hf h0 h1 h2
    unfold fetch_json
    rw [hf, h0, h1, h2]
    exact ⟨rfl, rfl⟩

/-- Witness for C6: a cache hit returns the cached document untouched, and
three network failures propagate the last error after backoffs of 1 s
and 2 s. -/
theorem fetch_json_cache_and_retry_witness :
    ((fun p => if p = "cache.json" then some "doc" else none) "cache.json" = some "doc" ∧
      fetch_json (fun _ _ => .error "down")
          (fun p => if p = "cache.json" then some "doc" else none) "u" "cache.json" =
        ⟨.ok "doc", fun p => if p = "cache.json" then some "doc" else none, 0, []⟩) ∧
    ((fetch_json (fun _ k => .error ("fail" ++ toString k)) (fun _ => none) "u" "f").res =
        .error "fail2" ∧
      (fetch_json (fun _ k => .error ("fail" ++ toString k)) (fun _ => none) "u" "f").delays =
        [1, 2]) :=
  ⟨⟨rfl, (fetch_json_cache_and_retry _ _ "u" "cache.json").1 "doc" rfl⟩,
    (fetch_json_cache_and_retry _ _ "u" "f").2.2 "fail0" "fail1" "fail2" rfl rfl rfl rfl⟩

/-- The outcome of one `download_file_async` call: `ok false` — already
have (no download), `ok true` — downloaded, `error` — an exception;
plus the filesystem afterwards and the number of HTTP GETs issued. -/
structure DlResult where
  res : Except String Bool
  fs : Fs
  gets : Nat

/-- The network portion of `download_file_async` (the code it falls through
to when the file is absent or mismatching): GET the url (`net` is this
attempt's response) — a transport/status error raises before anything is
written; a success writes the body to `path`, then, when a truthy digest
is expected and the written content's digest differs, raises the
`SHA1 mismatch` `ValueError` — leaving the written file in place. -/
def download_fetch (sha1fn : String → String) (net : Except String String)
    (fs : Fs) (path : String) (expected_sha : Option String) : DlResult :=
  match net with
  | .error e => ⟨.error e, fs, 1⟩
  | .ok content =>
    if truthy expected_sha && !(sha1fn content = expected_sha.getD "") then
      ⟨.error ("SHA1 mismatch for " ++ path ++ ": expected " ++
        expected_sha.getD "" ++ ", got " ++ sha1fn content), fs.write path content, 1⟩
    else ⟨.ok true, fs.write path content, 1⟩

/-- The `download_file_async` function from the source, for one attempt.  If the file
exists and (there is no truthy expected digest, or its digest matches),
return `False` with no network access; otherwise fall through to
`download_fetch`. -/
def download_file_async (sha1fn : String → String) (net : Except String String)
    (fs : Fs) (path : String) (expected_sha : Option String) : DlResult :=
  match fs path with
  | some c =>
    if truthy expected_sha then
      if sha1fn c = expected_sha.getD "" then ⟨.ok false, fs, 0⟩
      else download_fetch sha1fn net fs path expected_sha
    else ⟨.ok false, fs, 0⟩
  | none => download_fetch sha1fn net fs path expected_sha

/-- The outcome of `download_file_async_with_retry`: result, filesystem,
total HTTP GETs, and the backoff delays slept between attempts. -/
structure RetryResult where
  res : Except String Bool
  fs : Fs
  gets : Nat
  delays : List Nat

/-- The `while attempt < retries` loop of `download_file_async_with_retry`;
`rem` is the remaining fuel `retries - attempt` (the loop body never runs
when `retries = 0`, in which case Python falls off the loop and returns
`None`, a falsy value, modelled as `ok false`).  A caught exception
increments `attempt` and sleeps `backoff ^ attempt` seconds when
`attempt < retries` still holds, else re-raises; a successful download is
re-verified against the expected digest and a mismatch is treated as a
further attempt failure. -/
def download_retry_go (sha1fn : String → String) (net : Nat → Except String String)
    (path : String) (expected_sha : Option String) (retries backoff : Nat) :
    Nat → Nat → Fs → Nat → List Nat → RetryResult
  | _, 0, fs, gets, delays => ⟨.ok false, fs, gets, delays⟩
  | attempt, rem + 1, fs, gets, delays =>
    match download_file_async sha1fn (net attempt) fs path expected_sha with
    | ⟨.ok false, fs2, g⟩ => ⟨.ok false, fs2, gets + g, delays⟩
    | ⟨.ok true, fs2, g⟩ =>
      if truthy expected_sha && !(sha1fn ((fs2 path).getD "") = expected_sha.getD "") then
        if attempt + 1 < retries then
          download_retry_go sha1fn net path expected_sha retries backoff
            (attempt + 1) rem fs2 (gets + g) (delays ++ [backoff ^ (attempt + 1)])
        else
          ⟨.error ("SHA1 mismatch for " ++ path ++ " after download: expected " ++
            expected_sha.getD "" ++ ", got " ++ sha1fn ((fs2 path).getD "")),
            fs2, gets + g, delays⟩
      else ⟨.ok true, fs2, gets + g, delays⟩
    | ⟨.error e, fs2, g⟩ =>
      if attempt + 1 < retries then
        download_retry_go sha1fn net path expected_sha retries backoff
          (attempt + 1) rem fs2 (gets + g) (delays ++ [backoff ^ (attempt + 1)])
      else ⟨.error e, fs2, gets + g, delays⟩

/-- The `download_file_async_with_retry` function from the source (`retries = 3` and
`backoff = 2` at every call site). -/
def download_file_async_with_retry (sha1fn : String → String)
    (net : Nat → Except String String) (fs : Fs) (path : String)
    (expected_sha : Option String) (retries backoff : Nat) : RetryResult :=
  download_retry_go sha1fn net path expected_sha retries backoff 0 retries fs 0 []

/-- C2 counterexample: with the identity digest, expected digest `good`,
and a network that always serves `bad`, all 3 attempts succeed as writes
but mismatch; the task fails — yet the corrupt content `bad` is still
stored at the target path (the code never removes it), so a corrupt file
does remain, contrary to the claim. -/
theorem mismatch_leaves_corrupt_file :
    (download_file_async_with_retry (fun c => c) (fun _ => .ok "bad")
        (fun _ => none) "p" (some "good") 3 2).res =
      .error "SHA1 mismatch for p: expected good, got bad" ∧
    (download_file_async_with_retry (fun c => c) (fun _ => .ok "bad")
        (fun _ => none) "p" (some "good") 3 2).fs "p" = some "bad" ∧
    (fun c => c) "bad" ≠ "good" := by
  refine ⟨rfl, rfl, by decide⟩

theorem download_file_async_mismatch (sha1fn : String → String)
    (net : Except String String) (fs : Fs) (path e content : String)
    (he : truthy (some e) = true)
    (hnet : net = .ok content)
    (hmm : sha1fn content ≠ e)
    (hfs : ∀ c, fs path = some c → sha1fn c ≠ e) :
    download_file_async sha1fn net fs path (some e) =
      ⟨.error ("SHA1 mismatch for " ++ path ++ ": expected " ++ e ++ ", got " ++
        sha1fn content), fs.write path content, 1⟩ := by
  unfold download_file_async
  subst hnet
  cases hp : fs path with
  | none => simp [he, hmm, download_fetch]
  | some c =>
    have hc := hfs c hp
    simp [he, hc, hmm, download_fetch]

/-- C2 (amended): for every task with a (truthy) expected digest whose
target file, if present, already mismatches, if each of the 3 transfer
attempts succeeds as a write but the written content's digest mismatches
the expected digest, the task's outcome is the `SHA1 mismatch` failure of
the last attempt — but the last attempt's mismatching content is left
stored at the task's target path (it is only ever reported failed, never
valid; the claim's "no stale or corrupt file remains" does not hold). -/
theorem all_attempts_mismatch_fails (sha1fn : String → String)
    (net : Nat → Except String String) (fs : Fs) (path e : String)
    (contents : Nat → String)
    (he : truthy (some e) = true)
    (hnet : ∀ k, net k = .ok (contents k))
    (hmm : ∀ k, sha1fn (contents k) ≠ e)
    (hfs : ∀ c, fs path = some c → sha1fn c ≠ e) :
    (download_file_async_with_retry sha1fn net fs path (some e) 3 2).res =
      .error ("SHA1 mismatch for " ++ path ++ ": expected " ++ e ++ ", got " ++
        sha1fn (contents 2)) ∧
    (download_file_async_with_retry sha1fn net fs path (some e) 3 2).fs path =
      some (contents 2) ∧
    (download_file_async_with_retry sha1fn net fs path (some e) 3 2).delays = [2, 4] := by
  have hw : ∀ (g : Fs) (c : String), (Fs.write g path c) path = some c := by
    intro g c
    simp [Fs.write]
  have d0 := download_file_async_mismatch sha1fn (net 0) fs path e (contents 0)
    he (hnet 0) (hmm 0) hfs
  have d1 := download_file_async_mismatch sha1fn (net 1) (fs.write path (contents 0))
    path e (contents 1) he (hnet 1) (hmm 1)
    (by
      intro c hc
      rw [hw] at hc
      cases hc
      exact hmm 0)
  have d2 := download_file_async_mismatch sha1fn (net 2)
    ((fs.write path (contents 0)).write path (contents 1)) path e (contents 2)
    he (hnet 2) (hmm 2)
    (by
      intro c hc
      rw [hw] at hc
      cases hc
      exact hmm 1)
  unfold download_file_async_with_retry
  unfold download_retry_go
  rw [d0]
  simp only []
  unfold download_retry_go
  rw [d1]
  simp only []
  unfold download_retry_go
  rw [d2]
  simp only [hw]
  refine ⟨rfl, ?_, rfl⟩
  exact hw _ _

/-- Witness for C2's amended theorem at a concrete input (identity digest,
network constantly serving `bad`, expected digest `good`). -/
theorem all_attempts_mismatch_fails_witness :
    truthy (some "good") = true ∧
    ((download_file_async_with_retry (fun c => c) (fun _ => .ok "bad")
        (fun _ => none) "p" (some "good") 3 2).res =
      .error ("SHA1 mismatch for " ++ "p" ++ ": expected " ++ "good" ++ ", got " ++
        (fun c : String => c) "bad") ∧
    (download_file_async_with_retry (fun c => c) (fun _ => .ok "bad")
        (fun _ => none) "p" (some "good") 3 2).fs "p" = some "bad" ∧
    (download_file_async_with_retry (fun c => c) (fun _ => .ok "bad")
        (fun _ => none) "p" (some "good") 3 2).delays = [2, 4]) :=
  ⟨by decide,
    all_attempts_mismatch_fails (fun c => c) (fun _ => .ok "bad") (fun _ => none)
      "p" "good" (fun _ => "bad") (by decide) (fun _ => rfl)
      (fun _ => show ("bad" : String) ≠ "good" by decide)
      (fun c hc => by cases hc)⟩

/-- One `(url, path, sha)` tuple of the `tasks` list collected by
`headless` / `verify_and_download`. -/
structure DownloadTask where
  url : String
  path : String
  sha1 : Option String
deriving DecidableEq, Repr

/-- The `for url, path, sha in tasks` filter loop of `headless` (the
TaskPlanner): keep a task tagged `missing` when no file exists at its
path, or tagged `corrupt` when a truthy expected digest is present and
the file's computed digest differs; drop it otherwise.  (The
`verify_and_download` worker runs the same filter without the tags.) -/
def plan (sha1fn : String → String) (fs : Fs) (tasks : List DownloadTask) :
    List (DownloadTask × String) :=
  tasks.filterMap fun t =>
    match fs t.path with
    | none => some (t, "missing")
    | some c =>
      if truthy t.sha1 && !(sha1fn c = t.sha1.getD "") then some (t, "corrupt")
      else none

/-- Modelled from the spec: `TaskPlanner` retains a task iff its local file
does not exist, or an expected digest is present (truthy: non-`None`,
non-empty) and the file's computed digest differs from it. -/
def specRetains (sha1fn : String → String) (fs : Fs) (t : DownloadTask) : Prop :=
  fs t.path = none ∨
    ∃ c, fs t.path = some c ∧ truthy t.sha1 = true ∧ sha1fn c ≠ t.sha1.getD ""

/-- C1: the planner retains a task (with some reason tag) iff its local
file does not exist, or an expected digest is present and the computed
digest differs; in particular a task whose file is absent is always
retained, and a task whose file exists but that carries no (truthy)
expected digest is never retained. -/
theorem planner_retains_iff (sha1fn : String → String) (fs : Fs)
    (tasks : List DownloadTask) (t : DownloadTask) (ht : t ∈ tasks) :
    ((∃ r, (t, r) ∈ plan sha1fn fs tasks) ↔ specRetains sha1fn fs t) ∧
    (fs t.path = none → (t, "missing") ∈ plan sha1fn fs tasks) ∧
    (∀ c, fs t.path = some c → truthy t.sha1 = false →
      ¬ ∃ r, (t, r) ∈ plan sha1fn fs tasks) := by
  have key : ∀ r, (t, r) ∈ plan sha1fn fs tasks ↔
      t ∈ tasks ∧
        (match fs t.path with
          | none => some (t, "missing")
          | some c =>
            if truthy t.sha1 && !(sha1fn c = t.sha1.getD "") then some (t, "corrupt")
            else none) = some (t, r) := by
    intro r
    unfold plan
    rw [List.mem_filterMap]
    constructor
    · rintro ⟨a, ha, hfa⟩
      have haeq : a = t := by
        cases hp : fs a.path with
        | none =>
          rw [hp] at hfa
          change some (a, "missing") = some (t, r) at hfa
          cases hfa
          rfl
        | some c =>
          rw [hp] at hfa
          change (if (truthy a.sha1 && !decide (sha1fn c = a.sha1.getD "")) = true
            then some (a, "corrupt") else none) = some (t, r) at hfa
          by_cases hc : (truthy a.sha1 && !decide (sha1fn c = a.sha1.getD "")) = true
          · rw [if_pos hc] at hfa; cases hfa; rfl
          · rw [if_neg hc] at hfa; cases hfa
      subst haeq
      exact ⟨ha, hfa⟩
    · rintro ⟨ha, hfa⟩
      exact ⟨t, ha, hfa⟩
  refine ⟨?_, ?_, ?_⟩
  · constructor
    · rintro ⟨r, hr⟩
      have h2 := (key r).mp hr |>.2
      unfold specRetains
      cases hp : fs t.path with
      | none => exact Or.inl rfl
      | some c =>
        rw [hp] at h2
        change (if (truthy t.sha1 && !decide (sha1fn c = t.sha1.getD "")) = true
          then some (t, "corrupt") else none) = some (t, r) at h2
        right
        refine ⟨c, rfl, ?_⟩
        by_cases hc : (truthy t.sha1 && !decide (sha1fn c = t.sha1.getD "")) = true
        · have hb := Bool.and_eq_true _ _ |>.mp hc
          refine ⟨hb.1, ?_⟩
          simpa using hb.2
        · rw [if_neg hc] at h2; cases h2
    · intro hret
      unfold specRetains at hret
      rcases hret with hnone | ⟨c, hc, htr, hne⟩
      · refine ⟨"missing", (key "missing").mpr ⟨ht, ?_⟩⟩
        rw [hnone]
      · refine ⟨"corrupt", (key "corrupt").mpr ⟨ht, ?_⟩⟩
        rw [hc]
        change (if (truthy t.sha1 && !decide (sha1fn c = t.sha1.getD "")) = true
          then some (t, "corrupt") else none) = some (t, "corrupt")
        rw [if_pos (by simp [htr, hne])]
  · intro hnone
    exact (key "missing").mpr ⟨ht, by rw [hnone]⟩
  · rintro c hc hfalse ⟨r, hr⟩
    have h2 := (key r).mp hr |>.2
    rw [hc] at h2
    change (if (truthy t.sha1 && !decide (sha1fn c = t.sha1.getD "")) = true
      then some (t, "corrupt") else none) = some (t, r) at h2
    rw [if_neg (by simp [hfalse])] at h2
    cases h2

/-- Witness for C1 at concrete inputs: an absent file is retained, an
existing file without a digest is not. -/
theorem planner_retains_iff_witness :
    ((⟨"u1", "p1", some "s"⟩ : DownloadTask) ∈
        [(⟨"u1", "p1", some "s"⟩ : DownloadTask), ⟨"u2", "p2", none⟩] ∧
      ((∃ r, ((⟨"u1", "p1", some "s"⟩ : DownloadTask), r) ∈
          plan (fun c => c) (fun p => if p = "p2" then some "x" else none)
            [⟨"u1", "p1", some "s"⟩, ⟨"u2", "p2", none⟩]) ↔
        specRetains (fun c => c) (fun p => if p = "p2" then some "x" else none)
          ⟨"u1", "p1", some "s"⟩)) ∧
    ¬ ∃ r, ((⟨"u2", "p2", none⟩ : DownloadTask), r) ∈
        plan (fun c => c) (fun p => if p = "p2" then some "x" else none)
          [⟨"u1", "p1", some "s"⟩, ⟨"u2", "p2", none⟩] :=
  ⟨⟨by decide,
      (planner_retains_iff (fun c => c) (fun p => if p = "p2" then some "x" else none)
        [⟨"u1", "p1", some "s"⟩, ⟨"u2", "p2", none⟩] ⟨"u1", "p1", some "s"⟩ (by decide)).1⟩,
    (planner_retains_iff (fun c => c) (fun p => if p = "p2" then some "x" else none)
        [⟨"u1", "p1", some "s"⟩, ⟨"u2", "p2", none⟩] ⟨"u2", "p2", none⟩ (by decide)).2.2
      "x" rfl rfl⟩

/-- The `ASSET_DOWNLOAD` URL template from the source, applied to the shard
and the hash. -/
def ASSET_DOWNLOAD (shard hash : String) : String :=
  "https://resources.download.minecraft.net/" ++ shard ++ "/" ++ hash

/-- One value of the asset index's `objects` mapping: the code reads only
`hash`; the other fields (`size` here) are carried but ignored. -/
structure AssetObj where
  hash : String
  size : Nat
deriving DecidableEq, Repr

/-- The `for obj in index.get('objects', {}).values()` loop of `get_assets`:
each object yields a task whose URL is `ASSET_DOWNLOAD % (hash[:2], hash)`,
whose local path is `<cache_dir>/assets/objects/<hash[:2]>/<hash>`, and
whose expected digest is the hash itself.  (The index document itself is
fetched through `fetch_json`, modelled separately; this takes the parsed
object list.) -/
def get_assets (objects : List AssetObj) (cache_dir : String) : List DownloadTask :=
  objects.map fun obj =>
    ⟨ASSET_DOWNLOAD (pyTake obj.hash 2) obj.hash,
      cache_dir ++ "/assets/objects/" ++ pyTake obj.hash 2 ++ "/" ++ obj.hash,
      some obj.hash⟩

/-- Modelled from the spec: the task an asset object resolves to, a function
of its hash alone. -/
def asset_task (cache_dir : String) (obj : AssetObj) : DownloadTask :=
  ⟨ASSET_DOWNLOAD (pyTake obj.hash 2) obj.hash,
    cache_dir ++ "/assets/objects/" ++ pyTake obj.hash 2 ++ "/" ++ obj.hash,
    some obj.hash⟩

/-- C5: every asset object resolves to the task determined by its hash
alone — URL = base ++ first-two-chars shard ++ "/" ++ hash, local path =
`<root>/assets/objects/<shard>/<hash>`, expected digest = hash — so two
assets with equal hashes resolve to the same URL and the same local
path. -/
theorem asset_resolution_hash_determined :
    (∀ (objects : List AssetObj) (cache_dir : String),
        get_assets objects cache_dir = objects.map (asset_task cache_dir)) ∧
    (∀ (cache_dir : String) (obj : AssetObj),
        asset_task cache_dir obj =
          ⟨"https://resources.download.minecraft.net/" ++ pyTake obj.hash 2 ++ "/" ++
              obj.hash,
            cache_dir ++ "/assets/objects/" ++ pyTake obj.hash 2 ++ "/" ++ obj.hash,
            some obj.hash⟩) ∧
    (∀ (cache_dir : String) (o1 o2 : AssetObj), o1.hash = o2.hash →
        (asset_task cache_dir o1).url = (asset_task cache_dir o2).url ∧
        (asset_task cache_dir o1).path = (asset_task cache_dir o2).path) := by
  refine ⟨fun _ _ => rfl, fun _ _ => rfl, ?_⟩
  intro cache_dir o1 o2 h
  unfold asset_task
  rw [h]
  exact ⟨rfl, rfl⟩

/-- Witness for C5: two distinct asset objects sharing the hash
`abcd1234` resolve to the same URL and local path. -/
theorem asset_resolution_hash_determined_witness :
    (⟨"abcd1234", 10⟩ : AssetObj).hash = (⟨"abcd1234", 20⟩ : AssetObj).hash ∧
    (asset_task "root" ⟨"abcd1234", 10⟩).url = (asset_task "root" ⟨"abcd1234", 20⟩).url ∧
    (asset_task "root" ⟨"abcd1234", 10⟩).path = (asset_task "root" ⟨"abcd1234", 20⟩).path :=
  ⟨rfl, asset_resolution_hash_determined.2.2 "root" ⟨"abcd1234", 10⟩ ⟨"abcd1234", 20⟩ rfl⟩

/-- Python `s.replace(pat, rep)` on code points: replace non-overlapping
occurrences left to right (fuel-bounded recursion; the fuel
`s.length + 1` suffices because each step consumes at least one
character when `pat` is nonempty, and the source only ever replaces a
nonempty URL prefix). -/
def pyReplaceAux (pat rep : List Char) : Nat → List Char → List Char
  | 0, s => s
  | _ + 1, [] => []
  | fuel + 1, c :: rest =>
    if pat.isPrefixOf (c :: rest) ∧ pat ≠ [] then
      rep ++ pyReplaceAux pat rep fuel ((c :: rest).drop pat.length)
    else c :: pyReplaceAux pat rep fuel rest

/-- Python `s.replace(pat, rep)`. -/
def pyReplace (s pat rep : String) : String :=
  ⟨pyReplaceAux pat.data rep.data (s.data.length + 1) s.data⟩

/-- The well-known base URL stripped from library artifact URLs when no
relative `path` is declared. -/
def LIBRARIES_BASE : String := "https://libraries.minecraft.net/"

/-- The `for lib in libs` task-collection step of `headless` (identical in
`verify_and_download`): the local path comes from the artifact's declared
relative `path` joined under `<mc>/libraries`, else from the URL with the
well-known base stripped, joined under `<mc>/libraries`; the task carries
the artifact's `url` and optional `sha1`.  (When both `path` and `url`
are absent the Python code raises on `None.replace`; such an artifact is
modelled with the empty URL, a case no theorem relies on.) -/
def library_task (mc : String) (lib : ArtifactInfo) : DownloadTask :=
  let url := lib.url.getD ""
  let local_path :=
    match lib.path with
    | some rel => mc ++ "/libraries/" ++ rel
    | none => mc ++ "/libraries/" ++ pyReplace url LIBRARIES_BASE ""
  ⟨url, local_path, lib.sha1⟩

/-- A manifest's `downloads.client` section: the fields the code reads. -/
structure ClientInfo where
  url : String
  sha1 : Option String
deriving DecidableEq, Repr

/-- A manifest's `assetIndex` reference: its `url` and `id`. -/
structure AssetIndexRef where
  url : String
  id : String
deriving DecidableEq, Repr

/-- One installed version: its name (the versions directory entry) and the
parsed manifest fields the code reads. -/
structure VersionDoc where
  name : String
  client : Option ClientInfo
  libraries : List LibraryEntry
  assetIndex : Option AssetIndexRef
deriving DecidableEq, Repr

/-- The per-version task collection of `headless`: the client jar task
(local path `<mc>/versions/<name>/<name>.jar`), the library tasks, and
the asset tasks.  The asset index contents are supplied by `assets`
(url, id ↦ parsed object list), standing for the `fetch_json`-backed
lookup with unchanged remote content. -/
def resolve_version (mc : String) (assets : String → String → List AssetObj)
    (v : VersionDoc) : List DownloadTask :=
  (match v.client with
    | some c => [⟨c.url, mc ++ "/versions/" ++ v.name ++ "/" ++ v.name ++ ".jar", c.sha1⟩]
    | none => []) ++
  (get_libraries v.libraries).map (library_task mc) ++
  (match v.assetIndex with
    | some ai => get_assets (assets ai.url ai.id) mc
    | none => [])

/-- The full task collection of `headless` over all installed versions
(tasks are concatenated in version order, never deduplicated). -/
def resolve_all (mc : String) (assets : String → String → List AssetObj)
    (versions : List VersionDoc) : List DownloadTask :=
  versions.flatMap (resolve_version mc assets)

/-- C7 counterexample: an asset index in which two asset names share one
hash resolves to two tasks with the *same* local path, so resolution
does not uphold distinct local destinations. -/
theorem resolver_emits_duplicate_paths :
    ¬ ((resolve_all "mc" (fun _ _ => [⟨"aabb", 10⟩, ⟨"aabb", 20⟩])
        [⟨"v", none, [], some ⟨"iu", "i0"⟩⟩]).map DownloadTask.path).Nodup := by
  decide

/-- A file at `path` that `download_file_async` would accept without any
network access: it exists, and when a truthy digest is expected, its
computed digest matches. -/
def validFile (sha1fn : String → String) (fs : Fs) (path : String)
    (esha : Option String) : Prop :=
  ∃ c, fs path = some c ∧ (truthy esha = true → sha1fn c = esha.getD "")

theorem download_file_async_skip (sha1fn : String → String)
    (net : Except String String) (fs : Fs) (path : String) (esha : Option String)
    (h : validFile sha1fn fs path esha) :
    download_file_async sha1fn net fs path esha = ⟨.ok false, fs, 0⟩ := by
  obtain ⟨c, hc, hv⟩ := h
  unfold download_file_async
  rw [hc]
  by_cases ht : truthy esha = true
  · simp [ht, hv ht]
  · simp [ht]

theorem download_fetch_frame (sha1fn : String → String)
    (net : Except String String) (fs : Fs) (path : String) (esha : Option String)
    (q : String) (hq : q ≠ path) :
    (download_fetch sha1fn net fs path esha).fs q = fs q := by
  unfold download_fetch
  cases net with
  | error e => rfl
  | ok content =>
    by_cases hcond : (truthy esha && !(sha1fn content = esha.getD "")) = true <;>
      simp [hcond, Fs.write, hq]

theorem download_fetch_ok_valid (sha1fn : String → String)
    (net : Except String String) (fs : Fs) (path : String) (esha : Option String)
    (b : Bool) (h : (download_fetch sha1fn net fs path esha).res = .ok b) :
    validFile sha1fn (download_fetch sha1fn net fs path esha).fs path esha := by
  unfold download_fetch at h ⊢
  cases net with
  | error e => simp at h
  | ok content =>
    by_cases hcond : (truthy esha && !(sha1fn content = esha.getD "")) = true
    · simp [hcond] at h
    · simp only [hcond, if_neg, if_false]
      simp [hcond]
      refine ⟨content, by simp [Fs.write], ?_⟩
      intro ht
      by_contra hne
      exact hcond (by simp [ht, hne])

theorem download_file_async_frame (sha1fn : String → String)
    (net : Except String String) (fs : Fs) (path : String) (esha : Option String)
    (q : String) (hq : q ≠ path) :
    (download_file_async sha1fn net fs path esha).fs q = fs q := by
  have hf := download_fetch_frame sha1fn net fs path esha q hq
  unfold download_file_async
  cases hp : fs path with
  | none => exact hf
  | some c =>
    by_cases ht : truthy esha = true
    · by_cases hs : sha1fn c = esha.getD "" <;> simp [ht, hs, hf]
    · simp [ht]

theorem download_file_async_ok_valid (sha1fn : String → String)
    (net : Except String String) (fs : Fs) (path : String) (esha : Option String)
    (b : Bool) (h : (download_file_async sha1fn net fs path esha).res = .ok b) :
    validFile sha1fn (download_file_async sha1fn net fs path esha).fs path esha := by
  unfold download_file_async at h ⊢
  cases hp : fs path with
  | none =>
    rw [hp] at h
    exact download_fetch_ok_valid sha1fn net fs path esha b h
  | some c =>
    rw [hp] at h
    by_cases ht : truthy esha = true
    · by_cases hs : sha1fn c = esha.getD ""
      · simp only [ht, hs]
        simp
        exact ⟨c, hp, fun _ => hs⟩
      · simp [ht, hs] at h ⊢
        exact download_fetch_ok_valid sha1fn net fs path esha b h
    · simp [ht]
      exact ⟨c, hp, fun ht2 => absurd ht2 ht⟩

theorem download_retry_skip (sha1fn : String → String)
    (net : Nat → Except String String) (fs : Fs) (path : String)
    (esha : Option String) (h : validFile sha1fn fs path esha) :
    download_file_async_with_retry sha1fn net fs path esha 3 2 =
      ⟨.ok false, fs, 0, []⟩ := by
  unfold download_file_async_with_retry
  unfold download_retry_go
  rw [download_file_async_skip sha1fn (net 0) fs path esha h]

theorem download_retry_go_frame (sha1fn : String → String)
    (net : Nat → Except String String) (path : String) (esha : Option String)
    (retries backoff : Nat) (q : String) (hq : q ≠ path) :
    ∀ (rem attempt : Nat) (fs : Fs) (gets : Nat) (delays : List Nat),
      (download_retry_go sha1fn net path esha retries backoff
        attempt rem fs gets delays).fs q = fs q := by
  intro rem
  induction rem with
  | zero =>
    intro attempt fs gets delays
    rfl
  | succ n ih =>
    intro attempt fs gets delays
    have hdf := download_file_async_frame sha1fn (net attempt) fs path esha q hq
    unfold download_retry_go
    cases hd : download_file_async sha1fn (net attempt) fs path esha with
    | mk res fs2 g =>
      rw [hd] at hdf
      have hdf2 : fs2 q = fs q := hdf
      cases res with
      | ok b =>
        cases b
        · exact hdf2
        · by_cases hcond : (truthy esha && !(sha1fn ((fs2 path).getD "") = esha.getD "")) = true
          · by_cases hlt : attempt + 1 < retries
            · simp only [hcond, hlt, if_true, if_pos]
              simp [hcond, hlt, ih, hdf2]
            · simp [hcond, hlt, hdf2]
          · simp [hcond, hdf2]
      | error e =>
        by_cases hlt : attempt + 1 < retries
        · simp [hlt, ih, hdf2]
        · simp [hlt, hdf2]

theorem download_retry_go_ok_valid (sha1fn : String → String)
    (net : Nat → Except String String) (path : String) (esha : Option String)
    (retries backoff : Nat) :
    ∀ (rem attempt : Nat) (fs : Fs) (gets : Nat) (delays : List Nat) (b : Bool),
      0 < rem → attempt + rem = retries →
      (download_retry_go sha1fn net path esha retries backoff
        attempt rem fs gets delays).res = .ok b →
      validFile sha1fn
        (download_retry_go sha1fn net path esha retries backoff
          attempt rem fs gets delays).fs path esha := by
  intro rem
  induction rem with
  | zero =>
    intro attempt fs gets delays b hpos
    exact absurd hpos (by omega)
  | succ n ih =>
    intro attempt fs gets delays b _ hinv hres
    unfold download_retry_go at hres ⊢
    have hv := download_file_async_ok_valid sha1fn (net attempt) fs path esha
    generalize hd : download_file_async sha1fn (net attempt) fs path esha = d at hres hv ⊢
    obtain ⟨res, fs2, g⟩ := d
    cases res with
    | ok bb =>
      cases bb
      · exact hv false rfl
      · by_cases hcond : (truthy esha && !(sha1fn ((fs2 path).getD "") = esha.getD "")) = true
        · by_cases hlt : attempt + 1 < retries
          · have hn : 0 < n := by omega
            simp only [hcond, hlt, if_true] at hres ⊢
            exact ih (attempt + 1) fs2 (gets + g) (delays ++ [backoff ^ (attempt + 1)])
              b hn (by omega) hres
          · simp [hcond, hlt] at hres
        · simp [hcond] at hres ⊢
          exact hv true rfl
    | error e =>
      by_cases hlt : attempt + 1 < retries
      · have hn : 0 < n := by omega
        simp only [hlt, if_true] at hres ⊢
        exact ih (attempt + 1) fs2 (gets + g) (delays ++ [backoff ^ (attempt + 1)])
          b hn (by omega) hres
      · simp [hlt] at hres

theorem download_retry_ok_valid (sha1fn : String → String)
    (net : Nat → Except String String) (fs : Fs) (path : String)
    (esha : Option String) (b : Bool)
    (h : (download_file_async_with_retry sha1fn net fs path esha 3 2).res = .ok b) :
    validFile sha1fn
      (download_file_async_with_retry sha1fn net fs path esha 3 2).fs path esha :=
  download_retry_go_ok_valid sha1fn net path esha 3 2 3 0 fs 0 [] b
    (by omega) (by omega) h

theorem download_retry_frame (sha1fn : String → String)
    (net : Nat → Except String String) (fs : Fs) (path : String)
    (esha : Option String) (q : String) (hq : q ≠ path) :
    (download_file_async_with_retry sha1fn net fs path esha 3 2).fs q = fs q :=
  download_retry_go_frame sha1fn net path esha 3 2 q hq 3 0 fs 0 []

/-- The sequential model of the download loop of `headless`: the tasks are
processed in order (the concurrency cap serializes in this embedding),
each through `download_file_async_with_retry` with `retries = 3`,
`backoff = 2`; a per-task exception is caught, reported and does not
abort the remaining tasks.  Returns the final filesystem and, per task in
order, the task, its outcome, and the number of HTTP GETs it issued. -/
def run_transfers (sha1fn : String → String)
    (net : String → Nat → Except String String) :
    Fs → List DownloadTask → Fs × List (DownloadTask × Except String Bool × Nat)
  | fs, [] => (fs, [])
  | fs, t :: rest =>
    let r := download_file_async_with_retry sha1fn (net t.url) fs t.path t.sha1 3 2
    let res := run_transfers sha1fn net r.fs rest
    (res.1, (t, r.res, r.gets) :: res.2)

theorem run_transfers_cons (sha1fn : String → String)
    (net : String → Nat → Except String String) (fs : Fs)
    (t : DownloadTask) (rest : List DownloadTask) :
    run_transfers sha1fn net fs (t :: rest) =
      ((run_transfers sha1fn net
          (download_file_async_with_retry sha1fn (net t.url) fs t.path t.sha1 3 2).fs
          rest).1,
        (t, (download_file_async_with_retry sha1fn (net t.url) fs t.path t.sha1 3 2).res,
          (download_file_async_with_retry sha1fn (net t.url) fs t.path t.sha1 3 2).gets) ::
          (run_transfers sha1fn net
            (download_file_async_with_retry sha1fn (net t.url) fs t.path t.sha1 3 2).fs
            rest).2) :=
  rfl

theorem run_transfers_append (sha1fn : String → String)
    (net : String → Nat → Except String String) (xs ys : List DownloadTask) :
    ∀ fs : Fs,
      run_transfers sha1fn net fs (xs ++ ys) =
        ((run_transfers sha1fn net (run_transfers sha1fn net fs xs).1 ys).1,
          (run_transfers sha1fn net fs xs).2 ++
            (run_transfers sha1fn net (run_transfers sha1fn net fs xs).1 ys).2) := by
  induction xs with
  | nil => intro fs; rfl
  | cons t rest ih =>
    intro fs
    rw [List.cons_append, run_transfers_cons, run_transfers_cons, ih]
    simp

theorem run_transfers_length (sha1fn : String → String)
    (net : String → Nat → Except String String) (ts : List DownloadTask) :
    ∀ fs : Fs, (run_transfers sha1fn net fs ts).2.length = ts.length := by
  induction ts with
  | nil => intro fs; rfl
  | cons t rest ih =>
    intro fs
    rw [run_transfers_cons]
    simp [ih]

/-- Running any task list preserves a valid file at `p` (tasks targeting
`p` with the same expected digest skip; others do not touch `p`), and
every processed task targeting `p` is reported `ok false` with zero
GETs. -/
theorem run_transfers_preserve (sha1fn : String → String)
    (net : String → Nat → Except String String) (p : String) (es : Option String)
    (ts : List DownloadTask) :
    ∀ fs : Fs, validFile sha1fn fs p es →
      (∀ t ∈ ts, t.path = p → t.sha1 = es) →
      validFile sha1fn (run_transfers sha1fn net fs ts).1 p es ∧
      (∀ o ∈ (run_transfers sha1fn net fs ts).2, o.1.path = p →
        o.2.1 = Except.ok false ∧ o.2.2 = 0) := by
  induction ts with
  | nil =>
    intro fs hv _
    exact ⟨hv, by intro o ho; cases ho⟩
  | cons t rest ih =>
    intro fs hv hcons
    rw [run_transfers_cons]
    by_cases hp : t.path = p
    · have hsha : t.sha1 = es := hcons t (List.mem_cons_self t rest) hp
      have hskip : download_file_async_with_retry sha1fn (net t.url) fs t.path t.sha1 3 2 =
          ⟨.ok false, fs, 0, []⟩ := by
        rw [hp, hsha]
        exact download_retry_skip sha1fn (net t.url) fs p es hv
      rw [hskip]
      obtain ⟨h1, h2⟩ := ih fs hv (fun x hx => hcons x (List.mem_cons_of_mem t hx))
      refine ⟨h1, ?_⟩
      intro o ho hop
      rcases List.mem_cons.mp ho with rfl | ho2
      · exact ⟨rfl, rfl⟩
      · exact h2 o ho2 hop
    · have hframe : (download_file_async_with_retry sha1fn (net t.url) fs t.path t.sha1 3 2).fs p =
          fs p :=
        download_retry_frame sha1fn (net t.url) fs t.path t.sha1 p (Ne.symm hp)
      have hv2 : validFile sha1fn
          (download_file_async_with_retry sha1fn (net t.url) fs t.path t.sha1 3 2).fs p es := by
        obtain ⟨c, hc, hcd⟩ := hv
        exact ⟨c, by rw [hframe, hc], hcd⟩
      obtain ⟨h1, h2⟩ := ih _ hv2 (fun x hx => hcons x (List.mem_cons_of_mem t hx))
      refine ⟨h1, ?_⟩
      intro o ho hop
      rcases List.mem_cons.mp ho with rfl | ho2
      · exact absurd hop hp
      · exact h2 o ho2 hop

/-- C7 (amended): resolution may emit several tasks with the same local
path (`resolver_emits_duplicate_paths`), but — provided the run's tasks
agree on that path's expected digest — once the occurrence after `pre`
completes without an exception, every later task of the run targeting
the same path is reported already-valid (`ok false`) with zero HTTP
GETs: the duplicate causes no redundant network transfer. -/
theorem no_redundant_transfer (sha1fn : String → String)
    (net : String → Nat → Except String String) (fs : Fs)
    (pre : List DownloadTask) (t : DownloadTask) (rest : List DownloadTask) (b : Bool)
    (hcons : ∀ x ∈ pre ++ t :: rest, x.path = t.path → x.sha1 = t.sha1)
    (hok : (download_file_async_with_retry sha1fn (net t.url)
        (run_transfers sha1fn net fs pre).1 t.path t.sha1 3 2).res = .ok b) :
    ∀ o ∈ ((run_transfers sha1fn net fs (pre ++ t :: rest)).2).drop (pre.length + 1),
      o.1.path = t.path → o.2.1 = Except.ok false ∧ o.2.2 = 0 := by
  have hv : validFile sha1fn
      (download_file_async_with_retry sha1fn (net t.url)
        (run_transfers sha1fn net fs pre).1 t.path t.sha1 3 2).fs t.path t.sha1 :=
    download_retry_ok_valid sha1fn (net t.url) (run_transfers sha1fn net fs pre).1
      t.path t.sha1 b hok
  have hdrop : ((run_transfers sha1fn net fs (pre ++ t :: rest)).2).drop (pre.length + 1) =
      (run_transfers sha1fn net
        (download_file_async_with_retry sha1fn (net t.url)
          (run_transfers sha1fn net fs pre).1 t.path t.sha1 3 2).fs rest).2 := by
    rw [run_transfers_append, run_transfers_cons]
    have hsplit : (run_transfers sha1fn net fs pre).2 ++
        (t, (download_file_async_with_retry sha1fn (net t.url)
            (run_transfers sha1fn net fs pre).1 t.path t.sha1 3 2).res,
          (download_file_async_with_retry sha1fn (net t.url)
            (run_transfers sha1fn net fs pre).1 t.path t.sha1 3 2).gets) ::
          (run_transfers sha1fn net
            (download_file_async_with_retry sha1fn (net t.url)
              (run_transfers sha1fn net fs pre).1 t.path t.sha1 3 2).fs rest).2 =
        ((run_transfers sha1fn net fs pre).2 ++
          [(t, (download_file_async_with_retry sha1fn (net t.url)
              (run_transfers sha1fn net fs pre).1 t.path t.sha1 3 2).res,
            (download_file_async_with_retry sha1fn (net t.url)
              (run_transfers sha1fn net fs pre).1 t.path t.sha1 3 2).gets)]) ++
          (run_transfers sha1fn net
            (download_file_async_with_retry sha1fn (net t.url)
              (run_transfers sha1fn net fs pre).1 t.path t.sha1 3 2).fs rest).2 := by
      simp
    rw [hsplit]
    refine List.drop_left' ?_
    simp [run_transfers_length]
  rw [hdrop]
  exact (run_transfers_preserve sha1fn net t.path t.sha1 rest _ hv
    (fun x hx => hcons x (by simp [hx]))).2

/-- Witness for C7's amended theorem: the same task twice; the first
occurrence downloads and verifies, the second is reported `ok false`
with zero GETs. -/
theorem no_redundant_transfer_witness :
    (∀ x ∈ ([] : List DownloadTask) ++
        (⟨"u", "p", some "c"⟩ : DownloadTask) :: [⟨"u", "p", some "c"⟩],
      x.path = "p" → x.sha1 = some "c") ∧
    (download_file_async_with_retry (fun c => c) ((fun _ _ => .ok "c") "u")
        (run_transfers (fun c => c) (fun _ _ => .ok "c") (fun _ => none) []).1
        "p" (some "c") 3 2).res = .ok true ∧
    (∀ o ∈ ((run_transfers (fun c => c) (fun _ _ => .ok "c") (fun _ => none)
        (([] : List DownloadTask) ++
          (⟨"u", "p", some "c"⟩ : DownloadTask) :: [⟨"u", "p", some "c"⟩])).2).drop
        (List.length ([] : List DownloadTask) + 1),
      o.1.path = "p" → o.2.1 = Except.ok false ∧ o.2.2 = 0) :=
  ⟨by decide, rfl,
    no_redundant_transfer (fun c => c) (fun _ _ => .ok "c") (fun _ => none)
      [] ⟨"u", "p", some "c"⟩ [⟨"u", "p", some "c"⟩] true (by decide) rfl⟩

theorem plan_mem_fst (sha1fn : String → String) (fs : Fs)
    (ts : List DownloadTask) (x : DownloadTask)
    (hx : x ∈ (plan sha1fn fs ts).map Prod.fst) : x ∈ ts := by
  unfold plan at hx
  obtain ⟨⟨a, r⟩, hmem, ha⟩ := List.mem_map.mp hx
  obtain ⟨a', ha', hf⟩ := List.mem_filterMap.mp hmem
  cases hp : fs a'.path with
  | none =>
    rw [hp] at hf
    change some (a', "missing") = some (a, r) at hf
    cases hf
    exact ha ▸ ha'
  | some c =>
    rw [hp] at hf
    change (if (truthy a'.sha1 && !decide (sha1fn c = a'.sha1.getD "")) = true
      then some (a', "corrupt") else none) = some (a, r) at hf
    by_cases hcnd : (truthy a'.sha1 && !decide (sha1fn c = a'.sha1.getD "")) = true
    · rw [if_pos hcnd] at hf
      cases hf
      exact ha ▸ ha'
    · rw [if_neg hcnd] at hf
      cases hf

theorem plan_eq_nil_of_valid (sha1fn : String → String) (fs : Fs)
    (ts : List DownloadTask)
    (h : ∀ t ∈ ts, validFile sha1fn fs t.path t.sha1) :
    plan sha1fn fs ts = [] := by
  unfold plan
  rw [List.filterMap_eq_nil_iff]
  intro a ha
  obtain ⟨c, hc, hcd⟩ := h a ha
  by_cases ht : truthy a.sha1 = true
  · simp [hc, ht, hcd ht]
  · simp [hc, ht]

theorem mem_plan_of_not_valid (sha1fn : String → String) (fs : Fs)
    (ts : List DownloadTask) (t : DownloadTask) (htT : t ∈ ts)
    (hnv : ¬ validFile sha1fn fs t.path t.sha1) :
    t ∈ (plan sha1fn fs ts).map Prod.fst := by
  unfold plan
  cases hp : fs t.path with
  | none =>
    refine List.mem_map.mpr ⟨(t, "missing"), List.mem_filterMap.mpr ⟨t, htT, ?_⟩, rfl⟩
    simp [hp]
  | some c =>
    by_cases ht : truthy t.sha1 = true
    · by_cases hs : sha1fn c = t.sha1.getD ""
      · exact absurd ⟨c, hp, fun _ => hs⟩ hnv
      · refine List.mem_map.mpr ⟨(t, "corrupt"), List.mem_filterMap.mpr ⟨t, htT, ?_⟩, rfl⟩
        simp [hp, ht, hs]
    · exact absurd ⟨c, hp, fun h2 => absurd h2 ht⟩ hnv

/-- The headless pipeline over already-discovered versions: resolve the
tasks, filter them against the local filesystem (`plan`), and run the
pending ones through the transfer loop. -/
def headless_pipeline (sha1fn : String → String)
    (net : String → Nat → Except String String) (mc : String)
    (assets : String → String → List AssetObj) (versions : List VersionDoc)
    (fs : Fs) : Fs × List (DownloadTask × Except String Bool × Nat) :=
  run_transfers sha1fn net fs
    ((plan sha1fn fs (resolve_all mc assets versions)).map Prod.fst)

/-- C9 (amended): when all tasks resolved from the manifests agree on the
expected digest of every shared local path — in particular always when
local paths are distinct — and every transfer of the first run completed
without an exception, a second run over the same manifests and unchanged
remote content has an empty pending task set. -/
theorem pipeline_idempotent (sha1fn : String → String)
    (net : String → Nat → Except String String) (mc : String)
    (assets : String → String → List AssetObj) (versions : List VersionDoc)
    (fs : Fs)
    (hcons : ∀ x ∈ resolve_all mc assets versions,
      ∀ y ∈ resolve_all mc assets versions, x.path = y.path → x.sha1 = y.sha1)
    (hok : ∀ o ∈ (headless_pipeline sha1fn net mc assets versions fs).2,
      ∃ b, o.2.1 = Except.ok b) :
    plan sha1fn (headless_pipeline sha1fn net mc assets versions fs).1
      (resolve_all mc assets versions) = [] := by
  apply plan_eq_nil_of_valid
  intro t htT
  by_cases hvstart : validFile sha1fn fs t.path t.sha1
  · exact (run_transfers_preserve sha1fn net t.path t.sha1
      ((plan sha1fn fs (resolve_all mc assets versions)).map Prod.fst) fs hvstart
      (fun x hx hxp =>
        hcons x (plan_mem_fst sha1fn fs _ x hx) t htT hxp)).1
  · have htP : t ∈ (plan sha1fn fs (resolve_all mc assets versions)).map Prod.fst :=
      mem_plan_of_not_valid sha1fn fs _ t htT hvstart
    obtain ⟨xs, ys, hPeq⟩ := List.append_of_mem htP
    have hys : ∀ x ∈ ys, x ∈ (plan sha1fn fs (resolve_all mc assets versions)).map Prod.fst := by
      intro x hx
      rw [hPeq]
      exact List.mem_append.mpr (Or.inr (List.mem_cons_of_mem t hx))
    have houtmem : (t,
        (download_file_async_with_retry sha1fn (net t.url)
          (run_transfers sha1fn net fs xs).1 t.path t.sha1 3 2).res,
        (download_file_async_with_retry sha1fn (net t.url)
          (run_transfers sha1fn net fs xs).1 t.path t.sha1 3 2).gets) ∈
        (headless_pipeline sha1fn net mc assets versions fs).2 := by
      show _ ∈ (run_transfers sha1fn net fs
        ((plan sha1fn fs (resolve_all mc assets versions)).map Prod.fst)).2
      rw [hPeq, run_transfers_append, run_transfers_cons]
      exact List.mem_append.mpr (Or.inr (List.mem_cons_self _ _))
    obtain ⟨b, hb⟩ := hok _ houtmem
    have hv : validFile sha1fn
        (download_file_async_with_retry sha1fn (net t.url)
          (run_transfers sha1fn net fs xs).1 t.path t.sha1 3 2).fs t.path t.sha1 :=
      download_retry_ok_valid sha1fn (net t.url) (run_transfers sha1fn net fs xs).1
        t.path t.sha1 b hb
    have hfinal := (run_transfers_preserve sha1fn net t.path t.sha1 ys
      (download_file_async_with_retry sha1fn (net t.url)
        (run_transfers sha1fn net fs xs).1 t.path t.sha1 3 2).fs hv
      (fun x hx hxp =>
        hcons x (plan_mem_fst sha1fn fs _ x (hys x hx)) t htT hxp)).1
    show validFile sha1fn (run_transfers sha1fn net fs
      ((plan sha1fn fs (resolve_all mc assets versions)).map Prod.fst)).1 t.path t.sha1
    rw [hPeq, run_transfers_append, run_transfers_cons]
    exact hfinal

/-- C9 counterexample: two versions declaring the same library path
`libraries/x.jar` with different expected digests (`a` from `ua`, `b`
from `ub`).  Both first-run transfers succeed (each download verifies
against its own digest, the second overwriting the first), yet the
second run still finds the file corrupt for the first task — the pending
set of the second run is nonempty, so the claim fails as stated. -/
theorem pipeline_not_idempotent :
    ((headless_pipeline (fun c => c)
        (fun u _ => if u = "ua" then Except.ok "a" else Except.ok "b")
        "m" (fun _ _ => [])
        [⟨"A", none, [⟨[], some ⟨some ⟨some "ua", some "x.jar", some "a"⟩, none⟩⟩], none⟩,
          ⟨"B", none, [⟨[], some ⟨some ⟨some "ub", some "x.jar", some "b"⟩, none⟩⟩], none⟩]
        (fun _ => none)).2.map (fun o => o.2.1)) =
      [Except.ok true, Except.ok true] ∧
    plan (fun c => c)
      (headless_pipeline (fun c => c)
        (fun u _ => if u = "ua" then Except.ok "a" else Except.ok "b")
        "m" (fun _ _ => [])
        [⟨"A", none, [⟨[], some ⟨some ⟨some "ua", some "x.jar", some "a"⟩, none⟩⟩], none⟩,
          ⟨"B", none, [⟨[], some ⟨some ⟨some "ub", some "x.jar", some "b"⟩, none⟩⟩], none⟩]
        (fun _ => none)).1
      (resolve_all "m" (fun _ _ => [])
        [⟨"A", none, [⟨[], some ⟨some ⟨some "ua", some "x.jar", some "a"⟩, none⟩⟩], none⟩,
          ⟨"B", none, [⟨[], some ⟨some ⟨some "ub", some "x.jar", some "b"⟩, none⟩⟩], none⟩]) ≠
      [] := by
  refine ⟨rfl, ?_⟩
  decide

/-- Witness for C9's amended theorem: one version, one library task, a
network serving matching content — the second run's pending set is
empty. -/
theorem pipeline_idempotent_witness :
    (∀ x ∈ resolve_all "m" (fun _ _ => [])
        [⟨"A", none, [⟨[], some ⟨some ⟨some "ua", some "x.jar", some "a"⟩, none⟩⟩], none⟩],
      ∀ y ∈ resolve_all "m" (fun _ _ => [])
        [⟨"A", none, [⟨[], some ⟨some ⟨some "ua", some "x.jar", some "a"⟩, none⟩⟩], none⟩],
        x.path = y.path → x.sha1 = y.sha1) ∧
    plan (fun c => c)
      (headless_pipeline (fun c => c) (fun _ _ => Except.ok "a") "m" (fun _ _ => [])
        [⟨"A", none, [⟨[], some ⟨some ⟨some "ua", some "x.jar", some "a"⟩, none⟩⟩], none⟩]
        (fun _ => none)).1
      (resolve_all "m" (fun _ _ => [])
        [⟨"A", none, [⟨[], some ⟨some ⟨some "ua", some "x.jar", some "a"⟩, none⟩⟩], none⟩]) =
      [] :=
  ⟨by decide,
    pipeline_idempotent (fun c => c) (fun _ _ => Except.ok "a") "m" (fun _ _ => [])
      [⟨"A", none, [⟨[], some ⟨some ⟨some "ua", some "x.jar", some "a"⟩, none⟩⟩], none⟩]
      (fun _ => none) (by decide)
      (fun o ho => by
        have h2 : o ∈ [((⟨"ua", "m/libraries/x.jar", some "a"⟩ : DownloadTask),
            Except.ok true, (1 : Nat))] := ho
        rw [List.mem_singleton.mp h2]
        exact ⟨true, rfl⟩)⟩

end LocateResources
